import Mathlib

/-!
# Verification of `src/sites/home/decoder/decoder.js`

A shallow embedding of the browser-resident payload decoder:

* `covertToBinary` embeds the JS function of the same name: it maps a
  (possibly absent) byte sequence to the binary textual representation of
  its big-endian unsigned integer value, going through the same hex-string
  intermediate the JS code builds, and returning the sentinel `"Error"`
  when that intermediate is not parseable as a hex literal (the JS
  `try`/`catch` around `BigInt("0x" + hex)`).
* `decodePayload` embeds the JS function of the same name.  The base64
  decode (`atob`) and the CBOR decode (`cbor.decodeFirst`) are external
  library calls whose outcome we represent as an `Except` input: the JS
  code does not catch their exceptions, which the embedding models as
  propagation of the `Except.error` case.  The decoded CBOR value is
  modelled by `Decoded`: either it lacks a `data` array (`noData`, the
  branch at decoder.js:78) or it carries a list of items, each of which may
  be absent/invalid (`none`) or carries optional `bucket`/`value` byte
  strings (`none` for a missing or non-byte-sequence field).

JS `BigInt.toString(2)` / `toString(10)` are embedded as `binString` /
`decString`, built on a fuel-based base-`b` digit expansion `revDigits`
that is proved equal to Mathlib's `Nat.digits` so its lemmas apply.
-/

/-- Little-endian digit expansion with explicit fuel (structural recursion,
so the kernel can evaluate it). `toDigitsAux b fuel n` computes the base-`b`
digits of `n` provided `n ≤ fuel`. -/
def toDigitsAux (b : Nat) : Nat → Nat → List Nat
  | 0, _ => []
  | _ + 1, 0 => []
  | fuel + 1, n + 1 => ((n + 1) % b) :: toDigitsAux b fuel ((n + 1) / b)

/-- Little-endian base-`b` digits of `n` (empty for `n = 0`). -/
def revDigits (b n : Nat) : List Nat := toDigitsAux b n n

/-- The character for a digit value below 10, as JS `toString` prints it. -/
def digitChar (d : Nat) : Char := Char.ofNat (48 + d)

/-- The character for a hex digit value, as JS `toString(16)` prints it
(lowercase letters). -/
def hexChar (d : Nat) : Char := if d < 10 then Char.ofNat (48 + d) else Char.ofNat (87 + d)

/-- JS `BigInt.prototype.toString(2)`: most-significant-first base-2 text,
`"0"` for zero, no leading zeros otherwise. -/
def binString (n : Nat) : String := ⟨if n = 0 then ['0'] else ((revDigits 2 n).map digitChar).reverse⟩

/-- JS `BigInt.prototype.toString(10)`: most-significant-first base-10 text,
`"0"` for zero, no leading zeros otherwise. -/
def decString (n : Nat) : String := ⟨if n = 0 then ['0'] else ((revDigits 10 n).map digitChar).reverse⟩

/-- JS `Number.prototype.toString(16)` output for a natural number:
most-significant-first hex characters, `['0']` for zero. -/
def natHexChars (n : Nat) : List Char := if n = 0 then ['0'] else ((revDigits 16 n).map hexChar).reverse

/-- A JS number as it can sit inside the `bytes` argument of
`covertToBinary`: an integer or `NaN` (the non-integer cases the claims
need; any value whose `toString(16)` is not hex-literal syntax behaves
like `nan`). -/
inductive JsNum where
  | int (i : Int)
  | nan
deriving DecidableEq

/-- JS `x.toString(16)` on a number: `"NaN"` for `NaN`, a `'-'`-prefixed
hex numeral for a negative integer, plain lowercase hex otherwise. -/
def jsToString16 (x : JsNum) : List Char :=
  match x with
  | .nan => ['N', 'a', 'N']
  | .int i => if i < 0 then '-' :: natHexChars i.natAbs else natHexChars i.toNat

/-- JS `String.prototype.padStart(2, '0')`. -/
def padStart2 (l : List Char) : List Char :=
  if l.length < 2 then List.replicate (2 - l.length) '0' ++ l else l

/-- decoder.js:22 / 97 / 109: `byte.toString(16).padStart(2, '0')`. -/
def jsByteHex (x : JsNum) : List Char := padStart2 (jsToString16 x)

/-- Whether a character is acceptable inside a JS hex literal `0x…`
(`BigInt("0x" + hex)` throws exactly when some character fails this). -/
def isHexDigitChar (c : Char) : Bool :=
  ('0' ≤ c && c ≤ '9') || ('a' ≤ c && c ≤ 'f') || ('A' ≤ c && c ≤ 'F')

/-- Numeric value of a hex digit character. -/
def hexDigitVal (c : Char) : Nat :=
  if c ≤ '9' then c.toNat - 48 else if c ≤ 'F' then c.toNat - 55 else c.toNat - 87

/-- The value of a most-significant-first hex character string, as
`BigInt("0x" + hex)` computes it on well-formed input. -/
def hexVal (l : List Char) : Nat := l.foldl (fun a c => 16 * a + hexDigitVal c) 0

/-- decoder.js:18-30, `covertToBinary(bytes)`.  `none` is an absent
(`null`/`undefined`) argument.  The hex intermediate is built byte by byte
exactly as line 22 does; if every character is hex-literal syntax the
`BigInt` parse succeeds and line 25 renders base 2, otherwise the `catch`
at line 26 returns `"Error"`. -/
def covertToBinary (bytes : Option (List JsNum)) : String :=
  match bytes with
  | none => "0"
  | some bs =>
    if bs.length = 0 then "0"
    else if ((bs.map jsByteHex).flatten).all isHexDigitChar then
      binString (hexVal ((bs.map jsByteHex).flatten))
    else "Error"

/-- The condition under which the `try` block of `covertToBinary` throws
(and the `catch` at decoder.js:26-28 fires): a non-empty argument whose
hex intermediate contains a character that is not hex-literal syntax. -/
def conversionFails (bytes : Option (List JsNum)) : Bool :=
  match bytes with
  | none => false
  | some bs =>
    if bs.length = 0 then false
    else !((bs.map jsByteHex).flatten.all isHexDigitChar)

/-- A byte as held by a `Uint8Array` / `Buffer` element: a value in 0..255. -/
abbrev Byte := Fin 256

/-- Big-endian unsigned integer value of a byte string. -/
def beVal (bs : List Byte) : Nat := bs.foldl (fun a b => 256 * a + b.val) 0

/-- View a byte string as the JS number list `covertToBinary` receives. -/
def bytesToJs (bs : List Byte) : List JsNum := bs.map (fun b => JsNum.int b.val)

/-- One element of the decoded `data` array, after the duck-typing checks
of decoder.js:86-87 are modelled: a field is `some` byte string when it is
present and `Uint8Array`/`Buffer`-typed, `none` when missing or mistyped. -/
structure RawItem where
  bucket : Option (List Byte)
  value : Option (List Byte)
deriving DecidableEq

/-- The result of `cbor.decodeFirst`: either a value lacking a `data`
array (decoder.js:78, includes a falsy `decoded`), or a `data` array whose
elements may each be falsy (`none`) or an item record. -/
inductive Decoded where
  | noData
  | withData (items : List (Option RawItem))
deriving DecidableEq

/-- A JS exception surfaced by `atob` or `cbor.decodeFirst` (its message). -/
abbrev JsError := String

/-- The output record built at decoder.js:111-116. -/
structure Contribution where
  bucketInBinary : String
  valueInBinary : String
  bucketInDecimal : String
  valueInDecimal : String
deriving DecidableEq

/-- The body of the `decoded.data.map` callback at decoder.js:84-122:
`none` models returning `null` (skip), `some` a contribution record.
The value integer is computed through the hex intermediate of lines
97-98; every `Uint8Array` byte renders as two hex-digit characters, so
the `BigInt` parse never throws here and the `catch` at line 118 is
unreachable. -/
def processItem (oitem : Option RawItem) : Option Contribution :=
  match oitem with
  | none => none
  | some item =>
    match item.bucket, item.value with
    | some bkt, some vs =>
      if hexVal ((vs.map (fun b => jsByteHex (JsNum.int b.val))).flatten) = 0 then none
      else
        some {
          bucketInBinary := covertToBinary (some (bytesToJs bkt))
          valueInBinary := binString (hexVal ((vs.map (fun b => jsByteHex (JsNum.int b.val))).flatten))
          bucketInDecimal :=
            decString (hexVal ((bkt.map (fun b => jsByteHex (JsNum.int b.val))).flatten))
          valueInDecimal := decString (hexVal ((vs.map (fun b => jsByteHex (JsNum.int b.val))).flatten)) }
    | _, _ => none

/-- decoder.js:70-128, `decodePayload`.  The argument is the outcome of
the uncaught external calls `atob` + `cbor.decodeFirst` (lines 72-75): an
exception there propagates to the caller.  On a structure mismatch the
function returns `[]` (line 80); otherwise it maps `processItem` over the
`data` array and filters out the `null` markers (lines 84-127). -/
def decodePayload (decoded : Except JsError Decoded) : Except JsError (List Contribution) :=
  match decoded with
  | .error e => .error e
  | .ok .noData => .ok []
  | .ok (.withData items) => .ok ((items.map processItem).filterMap id)

/-- Parse a string as an unsigned base-2 numeral: defined (`some`) exactly
on non-empty strings of `'0'`/`'1'` characters, most significant first. -/
def parseBin (s : String) : Option Nat :=
  if s.data ≠ [] ∧ s.data.all (fun c => c == '0' || c == '1') then
    some (s.data.foldl (fun a c => 2 * a + (if c = '1' then 1 else 0)) 0)
  else none

/-- Parse a string as an unsigned base-10 numeral: defined (`some`) exactly
on non-empty strings of decimal digit characters, most significant first. -/
def parseDec (s : String) : Option Nat :=
  if s.data ≠ [] ∧ s.data.all (fun c => '0' ≤ c && c ≤ '9') then
    some (s.data.foldl (fun a c => 10 * a + (c.toNat - 48)) 0)
  else none

/-- A binary numeral string in the sense of the spec's output contract:
non-empty, only `'0'`/`'1'`, and no superfluous leading zero. -/
def goodBin (s : String) : Prop :=
  s.data ≠ [] ∧ (∀ c ∈ s.data, c = '0' ∨ c = '1') ∧ (s.data.head? = some '0' → s = "0")

/-- A decimal numeral string in the sense of the spec's output contract:
non-empty, only `'0'`-`'9'`, and no superfluous leading zero. -/
def goodDec (s : String) : Prop :=
  s.data ≠ [] ∧ (∀ c ∈ s.data, '0' ≤ c ∧ c ≤ '9') ∧ (s.data.head? = some '0' → s = "0")

/-! ## Digit expansion: `revDigits` agrees with `Nat.digits` -/

theorem toDigitsAux_eq_digits (b : Nat) (hb : 2 ≤ b) :
    ∀ fuel n, n ≤ fuel → toDigitsAux b fuel n = Nat.digits b n := by
  intro fuel
  induction fuel with
  | zero =>
    intro n hn
    interval_cases n
    simp [toDigitsAux]
  | succ fuel ih =>
    intro n hn
    match n with
    | 0 => simp [toDigitsAux]
    | n + 1 =>
      have hdiv : (n + 1) / b < n + 1 := Nat.div_lt_self (Nat.succ_pos n) (show 1 < b by omega)
      rw [toDigitsAux, Nat.digits_def' (show 1 < b by omega) (Nat.succ_pos n),
        ih ((n + 1) / b) (by omega)]

theorem revDigits_eq_digits {b : Nat} (hb : 2 ≤ b) (n : Nat) :
    revDigits b n = Nat.digits b n :=
  toDigitsAux_eq_digits b hb n n le_rfl

/-! ## Most-significant-first folds over printed digits -/

theorem foldl_msb (b : Nat) (f : Char → Nat) :
    ∀ (ds : List Nat), (∀ d ∈ ds, f (digitChar d) = d) → ∀ a : Nat,
      ((ds.map digitChar).reverse).foldl (fun x c => b * x + f c) a
        = a * b ^ ds.length + Nat.ofDigits b ds := by
  intro ds
  induction ds with
  | nil => intro _ a; simp [Nat.ofDigits_nil]
  | cons d tl ih =>
    intro h a
    have hd : f (digitChar d) = d := h d (List.mem_cons_self d tl)
    have htl : ∀ d ∈ tl, f (digitChar d) = d := fun x hx => h x (List.mem_cons_of_mem d hx)
    simp only [List.map_cons, List.reverse_cons, List.foldl_append, List.foldl_cons,
      List.foldl_nil, ih htl a, hd, Nat.ofDigits_cons, List.length_cons]
    ring

theorem binDigitVal_digitChar {d : Nat} (hd : d < 2) :
    (if digitChar d = '1' then 1 else 0) = d := by
  interval_cases d <;> decide

theorem decDigitVal_digitChar {d : Nat} (hd : d < 10) : (digitChar d).toNat - 48 = d := by
  interval_cases d <;> decide

theorem digitChar_bin {d : Nat} (hd : d < 2) : digitChar d = '0' ∨ digitChar d = '1' := by
  interval_cases d
  · exact Or.inl (by decide)
  · exact Or.inr (by decide)

theorem digitChar_dec {d : Nat} (hd : d < 10) : '0' ≤ digitChar d ∧ digitChar d ≤ '9' := by
  interval_cases d <;> exact ⟨by decide, by decide⟩

/-! ## Round trips for `binString` / `decString` -/

theorem parseBin_binString (n : Nat) : parseBin (binString n) = some n := by
  by_cases h : n = 0
  · subst h; decide
  · rw [binString, if_neg h, revDigits_eq_digits (by norm_num)]
    rw [parseBin]
    have hlt : ∀ d ∈ Nat.digits 2 n, d < 2 := fun d hd => Nat.digits_lt_base (by norm_num) hd
    have hmem : ∀ c ∈ ((Nat.digits 2 n).map digitChar).reverse, (c == '0' || c == '1') = true := by
      intro c hc
      rw [List.mem_reverse, List.mem_map] at hc
      obtain ⟨d, hd, rfl⟩ := hc
      rcases digitChar_bin (hlt d hd) with h0 | h1
      · simp [h0]
      · simp [h1]
    have hne : Nat.digits 2 n ≠ [] := Nat.digits_ne_nil_iff_ne_zero.mpr h
    rw [if_pos]
    · have := foldl_msb 2 (fun c => if c = '1' then 1 else 0) (Nat.digits 2 n)
        (fun d hd => binDigitVal_digitChar (hlt d hd)) 0
      simp only [String.data] at *
      rw [this, Nat.ofDigits_digits]
      simp
    · refine ⟨by simpa using hne, ?_⟩
      exact List.all_eq_true.mpr hmem

theorem parseDec_decString (n : Nat) : parseDec (decString n) = some n := by
  by_cases h : n = 0
  · subst h; decide
  · rw [decString, if_neg h, revDigits_eq_digits (by norm_num)]
    rw [parseDec]
    have hlt : ∀ d ∈ Nat.digits 10 n, d < 10 := fun d hd => Nat.digits_lt_base (by norm_num) hd
    have hmem : ∀ c ∈ ((Nat.digits 10 n).map digitChar).reverse,
        ('0' ≤ c && c ≤ '9') = true := by
      intro c hc
      rw [List.mem_reverse, List.mem_map] at hc
      obtain ⟨d, hd, rfl⟩ := hc
      have := digitChar_dec (hlt d hd)
      simp [this.1, this.2]
    have hne : Nat.digits 10 n ≠ [] := Nat.digits_ne_nil_iff_ne_zero.mpr h
    rw [if_pos]
    · have := foldl_msb 10 (fun c => c.toNat - 48) (Nat.digits 10 n)
        (fun d hd => decDigitVal_digitChar (hlt d hd)) 0
      simp only [String.data] at *
      rw [this, Nat.ofDigits_digits]
      simp
    · refine ⟨by simpa using hne, ?_⟩
      exact List.all_eq_true.mpr hmem

/-! ## Output-contract shape of `binString` / `decString` -/

theorem goodBin_binString (n : Nat) : goodBin (binString n) := by
  by_cases h : n = 0
  · subst h; refine ⟨by decide, by decide, fun _ => by decide⟩
  · rw [binString, if_neg h, revDigits_eq_digits (by norm_num)]
    have hlt : ∀ d ∈ Nat.digits 2 n, d < 2 := fun d hd => Nat.digits_lt_base (by norm_num) hd
    have hne : Nat.digits 2 n ≠ [] := Nat.digits_ne_nil_iff_ne_zero.mpr h
    refine ⟨by simpa using hne, ?_, ?_⟩
    · intro c hc
      simp only [String.data, List.mem_reverse, List.mem_map] at hc
      obtain ⟨d, hd, rfl⟩ := hc
      exact digitChar_bin (hlt d hd)
    · intro hhead
      exfalso
      rcases List.eq_nil_or_concat (Nat.digits 2 n) with hnil | ⟨L, d, hL⟩
      · exact hne hnil
      rw [List.concat_eq_append] at hL
      have hdne : d ≠ 0 := by
        have hgl := Nat.getLast_digit_ne_zero 2 h
        have h1 : (Nat.digits 2 n).getLast? = some d := by
          rw [hL]; exact List.getLast?_concat _
        have h2 := List.getLast?_eq_getLast (Nat.digits 2 n)
          (Nat.digits_ne_nil_iff_ne_zero.mpr h)
        rw [h1] at h2
        rw [Option.some.inj h2]
        exact hgl
      have hd2 : d < 2 := hlt d (by rw [hL]; exact List.mem_append_right _ (List.mem_singleton_self d))
      have hd1 : d = 1 := by omega
      rw [hL, hd1] at hhead
      simp only [String.data, List.map_append, List.map_cons, List.map_nil,
        List.reverse_append, List.reverse_cons, List.reverse_nil, List.nil_append,
        List.cons_append, List.head?_cons] at hhead
      exact absurd (Option.some.inj hhead) (by decide)

theorem goodDec_decString (n : Nat) : goodDec (decString n) := by
  by_cases h : n = 0
  · subst h; refine ⟨by decide, by decide, fun _ => by decide⟩
  · rw [decString, if_neg h, revDigits_eq_digits (by norm_num)]
    have hlt : ∀ d ∈ Nat.digits 10 n, d < 10 := fun d hd => Nat.digits_lt_base (by norm_num) hd
    have hne : Nat.digits 10 n ≠ [] := Nat.digits_ne_nil_iff_ne_zero.mpr h
    refine ⟨by simpa using hne, ?_, ?_⟩
    · intro c hc
      simp only [String.data, List.mem_reverse, List.mem_map] at hc
      obtain ⟨d, hd, rfl⟩ := hc
      exact digitChar_dec (hlt d hd)
    · intro hhead
      exfalso
      rcases List.eq_nil_or_concat (Nat.digits 10 n) with hnil | ⟨L, d, hL⟩
      · exact hne hnil
      rw [List.concat_eq_append] at hL
      have hdne : d ≠ 0 := by
        have hgl := Nat.getLast_digit_ne_zero 10 h
        have h1 : (Nat.digits 10 n).getLast? = some d := by
          rw [hL]; exact List.getLast?_concat _
        have h2 := List.getLast?_eq_getLast (Nat.digits 10 n)
          (Nat.digits_ne_nil_iff_ne_zero.mpr h)
        rw [h1] at h2
        rw [Option.some.inj h2]
        exact hgl
      have hd10 : d < 10 := hlt d (by rw [hL]; exact List.mem_append_right _ (List.mem_singleton_self d))
      rw [hL] at hhead
      simp only [String.data, List.map_append, List.map_cons, List.map_nil,
        List.reverse_append, List.reverse_cons, List.reverse_nil, List.nil_append,
        List.cons_append, List.head?_cons] at hhead
      have hch : digitChar d = '0' := Option.some.inj hhead
      have : d = 0 := by
        by_contra hd0
        interval_cases d <;> simp_all [digitChar]
      exact hdne this

/-! ## Hex rendering of bytes and the value of the hex intermediate -/

theorem hexDigitVal_hexChar {d : Nat} (hd : d < 16) : hexDigitVal (hexChar d) = d := by
  interval_cases d <;> decide

theorem isHexDigitChar_hexChar {d : Nat} (hd : d < 16) : isHexDigitChar (hexChar d) = true := by
  interval_cases d <;> decide

theorem natHexChars_byte {b : Nat} (hb : b < 256) :
    padStart2 (natHexChars b) = [hexChar (b / 16), hexChar (b % 16)] := by
  by_cases h0 : b = 0
  · subst h0; decide
  · rw [natHexChars, if_neg h0, revDigits_eq_digits (by norm_num)]
    by_cases h16 : b < 16
    · rw [Nat.digits_of_lt 16 b h0 h16]
      have : b / 16 = 0 := Nat.div_eq_of_lt h16
      have hm : b % 16 = b := Nat.mod_eq_of_lt h16
      simp [padStart2, this, hm, List.replicate]
      decide
    · push_neg at h16
      rw [Nat.digits_def' (show 1 < 16 by norm_num) (by omega)]
      have hdivne : b / 16 ≠ 0 := by
        intro hc
        have := Nat.div_add_mod b 16
        omega
      have hdivlt : b / 16 < 16 := by omega
      rw [Nat.digits_of_lt 16 (b / 16) hdivne hdivlt]
      simp [padStart2]

theorem jsByteHex_byte (b : Byte) :
    jsByteHex (JsNum.int b.val) = [hexChar (b.val / 16), hexChar (b.val % 16)] := by
  rw [jsByteHex, jsToString16]
  have : ¬((b.val : Int) < 0) := by omega
  rw [if_neg this, Int.toNat_natCast]
  exact natHexChars_byte b.isLt

theorem hexVal_bytes_foldl (bs : List Byte) :
    ∀ a : Nat, ((bs.map (fun b => jsByteHex (JsNum.int b.val))).flatten).foldl
        (fun x c => 16 * x + hexDigitVal c) a
      = bs.foldl (fun x b => 256 * x + b.val) a := by
  induction bs with
  | nil => intro a; rfl
  | cons b tl ih =>
    intro a
    rw [List.map_cons, List.flatten_cons, List.foldl_append, jsByteHex_byte]
    rw [ih]
    have h1 : b.val / 16 < 16 := by omega
    have h2 : b.val % 16 < 16 := by omega
    simp only [List.foldl_cons, List.foldl_nil, hexDigitVal_hexChar h1, hexDigitVal_hexChar h2]
    have hb := b.isLt
    congr 1
    omega

theorem hexVal_bytes (bs : List Byte) :
    hexVal ((bs.map (fun b => jsByteHex (JsNum.int b.val))).flatten) = beVal bs :=
  hexVal_bytes_foldl bs 0

theorem bytesHex_all_hex (bs : List Byte) :
    ((bs.map (fun b => jsByteHex (JsNum.int b.val))).flatten).all isHexDigitChar = true := by
  rw [List.all_eq_true]
  intro c hc
  rw [List.mem_flatten] at hc
  obtain ⟨l, hl, hcl⟩ := hc
  rw [List.mem_map] at hl
  obtain ⟨b, _, rfl⟩ := hl
  rw [jsByteHex_byte] at hcl
  have h1 : b.val / 16 < 16 := by omega
  have h2 : b.val % 16 < 16 := by omega
  simp only [List.mem_cons, List.not_mem_nil, or_false] at hcl
  rcases hcl with rfl | rfl
  · exact isHexDigitChar_hexChar h1
  · exact isHexDigitChar_hexChar h2

theorem covertToBinary_bytes (bs : List Byte) :
    covertToBinary (some (bytesToJs bs)) = binString (beVal bs) := by
  rw [covertToBinary]
  by_cases h : bs = []
  · subst h; rfl
  · rw [if_neg (by simpa [bytesToJs, List.length_eq_zero] using h)]
    have hmap : (bytesToJs bs).map jsByteHex = bs.map (fun x => jsByteHex (JsNum.int x.val)) := by
      simp only [bytesToJs, List.map_map]
      rfl
    rw [hmap, if_pos (bytesHex_all_hex bs), hexVal_bytes]

/-! ## Behaviour of `processItem` -/

theorem processItem_valid (bkt vs : List Byte) :
    processItem (some ⟨some bkt, some vs⟩)
      = if beVal vs = 0 then none
        else some {
          bucketInBinary := binString (beVal bkt)
          valueInBinary := binString (beVal vs)
          bucketInDecimal := decString (beVal bkt)
          valueInDecimal := decString (beVal vs) } := by
  simp only [processItem, hexVal_bytes, covertToBinary_bytes]

theorem processItem_skip (oitem : Option RawItem)
    (h : oitem = none ∨ ∃ item, oitem = some item ∧ (item.bucket = none ∨ item.value = none)) :
    processItem oitem = none := by
  rcases h with rfl | ⟨⟨obkt, oval⟩, rfl, h | h⟩
  · rfl
  · simp only at h
    subst h
    cases oval <;> rfl
  · simp only at h
    subst h
    cases obkt <;> rfl

theorem mem_output (items : List (Option RawItem)) (c : Contribution)
    (hc : c ∈ (items.map processItem).filterMap id) :
    ∃ bkt vs : List Byte, beVal vs ≠ 0 ∧
      c = { bucketInBinary := binString (beVal bkt)
            valueInBinary := binString (beVal vs)
            bucketInDecimal := decString (beVal bkt)
            valueInDecimal := decString (beVal vs) } := by
  rw [List.mem_filterMap] at hc
  obtain ⟨a, ha, hid⟩ := hc
  rw [id_eq] at hid
  subst hid
  rw [List.mem_map] at ha
  obtain ⟨oitem, _, hpi⟩ := ha
  match oitem with
  | none => cases hpi
  | some ⟨none, oval⟩ =>
    rw [processItem_skip _ (Or.inr ⟨_, rfl, Or.inl rfl⟩)] at hpi
    cases hpi
  | some ⟨some bkt, none⟩ =>
    rw [processItem_skip _ (Or.inr ⟨_, rfl, Or.inr rfl⟩)] at hpi
    cases hpi
  | some ⟨some bkt, some vs⟩ =>
    rw [processItem_valid] at hpi
    by_cases h0 : beVal vs = 0
    · rw [if_pos h0] at hpi; cases hpi
    · rw [if_neg h0] at hpi
      exact ⟨bkt, vs, h0, (Option.some.inj hpi).symm⟩

/-! ## List-level facts about the map-then-filter pipeline -/

theorem decodePayload_skip_elem (pre post : List (Option RawItem)) (oitem : Option RawItem)
    (h : processItem oitem = none) :
    decodePayload (.ok (.withData (pre ++ oitem :: post)))
      = decodePayload (.ok (.withData (pre ++ post))) := by
  simp only [decodePayload, List.map_append, List.map_cons, List.filterMap_append, h,
    List.filterMap_cons_none (show id (none : Option Contribution) = none from rfl)]

theorem map_some_filterMap_id_sublist {α : Type} (l : List (Option α)) :
    ((l.filterMap id).map some).Sublist l := by
  induction l with
  | nil => simp
  | cons a tl ih =>
    cases a with
    | none =>
      rw [List.filterMap_cons_none (show id (none : Option α) = none from rfl)]
      exact ih.cons _
    | some x =>
      rw [List.filterMap_cons_some (show id (some x) = some x from rfl), List.map_cons]
      exact ih.cons₂ _

theorem length_filterMap_id_eq_iff {α : Type} (l : List (Option α)) :
    (l.filterMap id).length = l.length ↔ ∀ r ∈ l, r ≠ none := by
  induction l with
  | nil => simp
  | cons a tl ih =>
    cases a with
    | none =>
      rw [List.filterMap_cons_none (show id (none : Option α) = none from rfl), List.length_cons]
      constructor
      · intro h
        exfalso
        have := List.length_filterMap_le id tl
        omega
      · intro h
        exact absurd rfl (h none (List.mem_cons_self _ _))
    | some x =>
      rw [List.filterMap_cons_some (show id (some x) = some x from rfl), List.length_cons,
        List.length_cons]
      constructor
      · intro h r hr
        rcases List.mem_cons.mp hr with rfl | hr
        · exact Option.some_ne_none x
        · exact (ih.mp (by omega)) r hr
      · intro h
        have := ih.mpr (fun r hr => h r (List.mem_cons_of_mem _ hr))
        omega

/-! ## Auxiliary fact: a hex string of `'0'` characters has value zero -/

theorem hexVal_all_zero_chars (l : List Char) (h : ∀ c ∈ l, c = '0') :
    l.foldl (fun a c => 16 * a + hexDigitVal c) 0 = 0 := by
  induction l with
  | nil => rfl
  | cons c tl ih =>
    have hc : c = '0' := h c (List.mem_cons_self _ _)
    subst hc
    rw [List.foldl_cons, show 16 * 0 + hexDigitVal '0' = 0 from by decide]
    exact ih (fun x hx => h x (List.mem_cons_of_mem _ hx))

/-! ## The claims -/

/-- Claim C1: for every input array element whose `value` field decodes to
the big-endian unsigned integer 0, `decodePayload` omits that element from
the returned sequence, regardless of the element's bucket bytes: the
output on an input containing the element equals the output on the input
with the element removed. -/
theorem claim_C1_zero_value_filtered (pre post : List (Option RawItem))
    (obkt : Option (List Byte)) (vs : List Byte) (h0 : beVal vs = 0) :
    decodePayload (.ok (.withData (pre ++ some ⟨obkt, some vs⟩ :: post)))
      = decodePayload (.ok (.withData (pre ++ post))) := by
  apply decodePayload_skip_elem
  cases obkt with
  | none => exact processItem_skip _ (Or.inr ⟨_, rfl, Or.inl rfl⟩)
  | some bkt => rw [processItem_valid, if_pos h0]

theorem claim_C1_zero_value_filtered_witness :
    beVal [(0 : Byte)] = 0 ∧
      decodePayload (.ok (.withData [some ⟨some [(255 : Byte)], some [(0 : Byte)]⟩]))
        = decodePayload (.ok (.withData [])) :=
  ⟨by decide, claim_C1_zero_value_filtered [] [] (some [(255 : Byte)]) [(0 : Byte)] (by decide)⟩

/-- Claim C2: for every non-empty byte sequence, the string produced by
`covertToBinary` parses as a base-2 unsigned integer back to the
big-endian unsigned integer value of the bytes. -/
theorem claim_C2_binary_roundtrip (bs : List Byte) (_h : bs ≠ []) :
    parseBin (covertToBinary (some (bytesToJs bs))) = some (beVal bs) := by
  rw [covertToBinary_bytes, parseBin_binString]

theorem claim_C2_binary_roundtrip_witness :
    ([(1 : Byte), (255 : Byte)] : List Byte) ≠ [] ∧
      parseBin (covertToBinary (some (bytesToJs [(1 : Byte), (255 : Byte)])))
        = some (beVal [(1 : Byte), (255 : Byte)]) :=
  ⟨by decide, claim_C2_binary_roundtrip [(1 : Byte), (255 : Byte)] (by decide)⟩

/-- Claim C3: `covertToBinary` returns exactly the string "0" for an
absent byte sequence, for an empty one, and for any sequence consisting
only of zero bytes. -/
theorem claim_C3_zero_inputs (bs : List JsNum) (h : ∀ x ∈ bs, x = JsNum.int 0) :
    covertToBinary none = "0" ∧ covertToBinary (some []) = "0" ∧
      covertToBinary (some bs) = "0" := by
  refine ⟨rfl, rfl, ?_⟩
  by_cases hnil : bs = []
  · subst hnil; rfl
  · rw [covertToBinary, if_neg (by simpa [List.length_eq_zero] using hnil)]
    have hchar : ∀ c ∈ (bs.map jsByteHex).flatten, c = '0' := by
      intro c hc
      rw [List.mem_flatten] at hc
      obtain ⟨l, hl, hcl⟩ := hc
      rw [List.mem_map] at hl
      obtain ⟨x, hx, rfl⟩ := hl
      rw [h x hx, show jsByteHex (JsNum.int 0) = ['0', '0'] from by decide] at hcl
      simpa using hcl
    rw [if_pos (List.all_eq_true.mpr (fun c hc => by rw [hchar c hc]; decide))]
    rw [show hexVal ((bs.map jsByteHex).flatten) = 0 from
      hexVal_all_zero_chars _ hchar]
    rfl

theorem claim_C3_zero_inputs_witness :
    covertToBinary (some [JsNum.int 0, JsNum.int 0]) = "0" :=
  (claim_C3_zero_inputs [JsNum.int 0, JsNum.int 0] (by decide)).2.2

/-- Claim C5: a successfully CBOR-decoded value that lacks a `data` array
makes `decodePayload` return the empty sequence normally rather than
raising. -/
theorem claim_C5_structural_mismatch_empty :
    decodePayload (.ok Decoded.noData) = .ok [] := rfl

/-- Claim C6: a malformed-base64 or undecodable-CBOR failure (an exception
from the uncaught `atob`/`cbor.decodeFirst` calls at decoder.js:72-75)
propagates out of `decodePayload` unchanged, and in particular the call
never returns a normal (e.g. empty) list in that case. -/
theorem claim_C6_fatal_errors_propagate (e : JsError) :
    decodePayload (.error e) = .error e ∧
      ∀ l : List Contribution, decodePayload (.error e) ≠ .ok l := by
  refine ⟨rfl, fun l h => ?_⟩
  simp [decodePayload] at h

/-- Claim C7: an element of `data` that is absent, or whose `bucket` or
`value` is missing or not byte-sequence-typed, is skipped on its own with
the rest of the array still processed: the output equals the output on the
input with just that element removed. -/
theorem claim_C7_invalid_item_skipped (pre post : List (Option RawItem)) (oitem : Option RawItem)
    (h : oitem = none ∨ ∃ item, oitem = some item ∧ (item.bucket = none ∨ item.value = none)) :
    decodePayload (.ok (.withData (pre ++ oitem :: post)))
      = decodePayload (.ok (.withData (pre ++ post))) :=
  decodePayload_skip_elem pre post oitem (processItem_skip oitem h)

theorem claim_C7_invalid_item_skipped_witness :
    decodePayload (.ok (.withData
        [some ⟨none, some [(1 : Byte)]⟩, some ⟨some [(2 : Byte)], some [(1 : Byte)]⟩]))
      = decodePayload (.ok (.withData [some ⟨some [(2 : Byte)], some [(1 : Byte)]⟩])) :=
  claim_C7_invalid_item_skipped [] [some ⟨some [(2 : Byte)], some [(1 : Byte)]⟩]
    (some ⟨none, some [(1 : Byte)]⟩) (Or.inr ⟨_, rfl, Or.inl rfl⟩)

/-- Claim C8: whenever the internal conversion of `covertToBinary` fails
(the hex intermediate is not hex-literal syntax, so the `BigInt` parse
throws), the function still returns — with the sentinel string "Error",
which is distinct from every string of binary digits. -/
theorem claim_C8_error_sentinel (bytes : Option (List JsNum))
    (h : conversionFails bytes = true) :
    covertToBinary bytes = "Error" ∧
      ∀ s : String, (∀ c ∈ s.data, c = '0' ∨ c = '1') → covertToBinary bytes ≠ s := by
  have herr : covertToBinary bytes = "Error" := by
    match bytes with
    | none => simp [conversionFails] at h
    | some bs =>
      rw [conversionFails] at h
      rw [covertToBinary]
      by_cases hlen : bs.length = 0
      · rw [if_pos hlen] at h; cases h
      · rw [if_neg hlen] at h ⊢
        have hfalse : ((bs.map jsByteHex).flatten).all isHexDigitChar = false := by
          rwa [Bool.not_eq_true'] at h
        rw [if_neg (by simp [hfalse])]
  refine ⟨herr, fun s hs hc => ?_⟩
  rw [herr] at hc
  subst hc
  have := hs 'E' (by decide)
  exact absurd this (by decide)

theorem claim_C8_error_sentinel_witness :
    conversionFails (some [JsNum.nan]) = true ∧
      covertToBinary (some [JsNum.nan]) = "Error" :=
  ⟨by decide, (claim_C8_error_sentinel (some [JsNum.nan]) (by decide)).1⟩

/-- Claim C4: the sequence `decodePayload` returns is an order-preserving
subsequence of the per-element results: wrapping each output record in
`some` gives a sublist of `items.map processItem` (so surviving records
keep the relative order of their source elements), the output length is at
most the input length, and the lengths are equal exactly when no element
was skipped (no per-element result is `none`). -/
theorem claim_C4_order_preserving_filter (items : List (Option RawItem))
    (l : List Contribution) (h : decodePayload (.ok (.withData items)) = .ok l) :
    (l.map some).Sublist (items.map processItem) ∧
      l.length ≤ items.length ∧
      (l.length = items.length ↔ ∀ r ∈ items.map processItem, r ≠ none) := by
  have hl : (items.map processItem).filterMap id = l := Except.ok.inj h
  subst hl
  refine ⟨map_some_filterMap_id_sublist _, ?_, ?_⟩
  · calc ((items.map processItem).filterMap id).length
        ≤ (items.map processItem).length := List.length_filterMap_le id _
      _ = items.length := List.length_map _ _
  · have := length_filterMap_id_eq_iff (items.map processItem)
    rwa [List.length_map] at this

theorem claim_C4_order_preserving_filter_witness :
    ((([⟨"1", "10", "1", "2"⟩] : List Contribution).map some).Sublist
      (([some ⟨some [(1 : Byte)], some [(2 : Byte)]⟩] : List (Option RawItem)).map processItem)) :=
  (claim_C4_order_preserving_filter [some ⟨some [(1 : Byte)], some [(2 : Byte)]⟩]
    [⟨"1", "10", "1", "2"⟩] rfl).1

/-- Claim C9: every record in a sequence returned by `decodePayload`
exposes the four text fields `bucketInBinary`, `valueInBinary`,
`bucketInDecimal`, `valueInDecimal`; the binary fields contain only the
characters '0' and '1', the decimal fields only '0' through '9', and no
field has a superfluous leading zero ("0" being the only zero-valued
form). -/
theorem claim_C9_output_field_format (d : Except JsError Decoded) (l : List Contribution)
    (c : Contribution) (hd : decodePayload d = .ok l) (hc : c ∈ l) :
    goodBin c.bucketInBinary ∧ goodBin c.valueInBinary ∧
      goodDec c.bucketInDecimal ∧ goodDec c.valueInDecimal := by
  match d with
  | .error e => simp [decodePayload] at hd
  | .ok .noData =>
    have : ([] : List Contribution) = l := Except.ok.inj hd
    subst this
    cases hc
  | .ok (.withData items) =>
    have hl : (items.map processItem).filterMap id = l := Except.ok.inj hd
    subst hl
    obtain ⟨bkt, vs, hv, rfl⟩ := mem_output items c hc
    exact ⟨goodBin_binString _, goodBin_binString _, goodDec_decString _, goodDec_decString _⟩

theorem claim_C9_output_field_format_witness :
    goodBin ("1" : String) ∧ goodBin ("10" : String) ∧
      goodDec ("1" : String) ∧ goodDec ("2" : String) :=
  claim_C9_output_field_format (.ok (.withData [some ⟨some [(1 : Byte)], some [(2 : Byte)]⟩]))
    [⟨"1", "10", "1", "2"⟩] ⟨"1", "10", "1", "2"⟩ rfl (List.mem_singleton_self _)

/-- Claim C10: every record in a sequence returned by `decodePayload` is
numerically consistent: its `bucketInBinary` parsed in base 2 equals its
`bucketInDecimal` parsed in base 10, its `valueInBinary` parsed in base 2
equals its `valueInDecimal` parsed in base 10, and the value pair denotes
a nonzero integer. -/
theorem claim_C10_binary_decimal_consistency (d : Except JsError Decoded)
    (l : List Contribution) (c : Contribution) (hd : decodePayload d = .ok l) (hc : c ∈ l) :
    parseBin c.bucketInBinary = parseDec c.bucketInDecimal ∧
      parseBin c.valueInBinary = parseDec c.valueInDecimal ∧
      ∃ n : Nat, n ≠ 0 ∧ parseBin c.valueInBinary = some n := by
  match d with
  | .error e => simp [decodePayload] at hd
  | .ok .noData =>
    have : ([] : List Contribution) = l := Except.ok.inj hd
    subst this
    cases hc
  | .ok (.withData items) =>
    have hl : (items.map processItem).filterMap id = l := Except.ok.inj hd
    subst hl
    obtain ⟨bkt, vs, hv, rfl⟩ := mem_output items c hc
    refine ⟨?_, ?_, beVal vs, hv, ?_⟩
    · show parseBin (binString (beVal bkt)) = parseDec (decString (beVal bkt))
      rw [parseBin_binString, parseDec_decString]
    · show parseBin (binString (beVal vs)) = parseDec (decString (beVal vs))
      rw [parseBin_binString, parseDec_decString]
    · exact parseBin_binString (beVal vs)

theorem claim_C10_binary_decimal_consistency_witness :
    parseBin ("1" : String) = parseDec ("1" : String) ∧
      parseBin ("10" : String) = parseDec ("2" : String) ∧
      ∃ n : Nat, n ≠ 0 ∧ parseBin ("10" : String) = some n :=
  claim_C10_binary_decimal_consistency
    (.ok (.withData [some ⟨some [(1 : Byte)], some [(2 : Byte)]⟩]))
    [⟨"1", "10", "1", "2"⟩] ⟨"1", "10", "1", "2"⟩ rfl (List.mem_singleton_self _)
